import Mathlib

/-!
# Odradek Sense: stillness tracker and wavetable oscillator

A shallow embedding of `NeonSensors.h`, `NeonSynth.h` and `neon_engine.cpp`.

Conventions of the embedding.

* `float` and `double` values are modelled by rational numbers; infinities and
  NaN are not part of the model.
* The render loop of `onAudioReady` is modelled in exact arithmetic: the
  results on the ramp and on the phase are results about the exact ramp.
* The two setters that compute a value, `setSensorModulation` and
  `setMasterVolume`, round each operation to binary32 (`fl32`: round to
  nearest, ties to even, 24 significant bits, subnormals below `2^-126`), and
  their literals carry the exact binary32 value. A result whose magnitude
  reaches `2^128`, which the hardware replaces by an infinity, is outside the
  model; `isBinary32` carries the range condition where it matters.
* The thresholds `0.1f` and `0.001f` of the two comparisons are modelled by
  `1/10` and `1/1000`. The tests `smoothed < 0.1f` and `smoothed < 1/10` agree
  on every binary32 value. The tests `x <= 0.001f` and `x ≤ 1/1000` agree on
  every binary32 value except `0.001f` itself (`lit_0_001f`, slightly above
  `1/1000`), which the code sends to the silence branch.
* `int` / `int32_t` values are modelled by `Int`; an increment wraps to the
  32-bit two's-complement range (`wrapInt32`). For the plain `int` counter of
  the tracker, whose overflow C++ leaves undefined, results are stated for
  runs of fewer than `2^31` samples, which cannot overflow it.
* A call the sensor thread makes on the synth (`mSynth->suspend()`,
  `mSynth->resume()`) is recorded as a `HwRequest`; each step returns the list
  of requests it issued, in order.
* The audio buffer is modelled by the list of samples written to
  `floatData[0 .. numFrames)`, in order.
-/

namespace Odradek

/-! ## Machine integers -/

/-- Two's-complement wrap of an integer to the range of a 32-bit `int`. -/
def wrapInt32 (x : Int) : Int := (x + 2147483648) % 4294967296 - 2147483648

/-! ## NeonSensors: the stillness tracker inside `pollLoop` -/

/-- A call made by the sensor thread on the synth: `suspend()` or `resume()`. -/
inductive HwRequest where
  | suspend
  | resume
  deriving DecidableEq, Repr

/-- The members of `NeonSensors` the stillness logic reads and writes.
`mSynth` records whether the `NeonSynth*` is non-null. -/
structure NeonSensors where
  mSynth : Bool
  mStillnessFrameCounter : Int
  deriving DecidableEq, Repr

/-- `const int kStillnessThreshold = 50;` -/
def kStillnessThreshold : Int := 50

/-- Constructor `NeonSensors(NeonSynth* synth)`: the counter starts at 0. -/
def NeonSensors.new (synth : Bool) : NeonSensors :=
  { mSynth := synth, mStillnessFrameCounter := 0 }

/-- The tracker as `startNative` builds it:
`std::make_unique<NeonSensors>(synthEngine.get())` with a live synth. -/
def sensorEngine : NeonSensors := NeonSensors.new true

/-- The micro-hibernation block of `pollLoop` (NeonSensors.h, lines 94 to 108),
run once per sensor event on the smoothed magnitude. Returns the new tracker
and the requests issued by this step. -/
def NeonSensors.pollStep (t : NeonSensors) (smoothed : ℚ) : NeonSensors × List HwRequest :=
  if smoothed < 1 / 10 then
    let t1 := { t with mStillnessFrameCounter := wrapInt32 (t.mStillnessFrameCounter + 1) }
    if t1.mStillnessFrameCounter = kStillnessThreshold then
      (t1, if t1.mSynth then [HwRequest.suspend] else [])
    else
      (t1, [])
  else
    let reqs : List HwRequest :=
      if t.mStillnessFrameCounter ≥ kStillnessThreshold then
        (if t.mSynth then [HwRequest.resume] else [])
      else []
    ({ t with mStillnessFrameCounter := 0 }, reqs)

/-- Feed a sequence of smoothed samples, one `pollStep` each. Returns the final
tracker and, per sample, the requests that sample caused. -/
def NeonSensors.feed : NeonSensors → List ℚ → NeonSensors × List (List HwRequest)
  | t, [] => (t, [])
  | t, x :: xs =>
    let r := t.pollStep x
    let rest := NeonSensors.feed r.1 xs
    (rest.1, r.2 :: rest.2)

/-- Number of `suspend()` calls in a per-step trace. -/
def suspendCount (trace : List (List HwRequest)) : Nat :=
  trace.flatten.count HwRequest.suspend

/-- Number of `resume()` calls in a per-step trace. -/
def resumeCount (trace : List (List HwRequest)) : Nat :=
  trace.flatten.count HwRequest.resume

/-- The requests in the list alternate, the first one being a suspend when
`expectSuspend` is true and a resume otherwise. -/
def alternates : Bool → List HwRequest → Bool
  | _, [] => true
  | true, HwRequest.suspend :: rest => alternates false rest
  | false, HwRequest.resume :: rest => alternates true rest
  | _, _ => false

/-! ## Binary32 rounding -/

/-- Round to the nearest integer, ties to the even one. -/
def roundHalfEven (y : ℚ) : Int :=
  if y - (⌊y⌋ : ℚ) < 1 / 2 then ⌊y⌋
  else if 1 / 2 < y - (⌊y⌋ : ℚ) then ⌊y⌋ + 1
  else if ⌊y⌋ % 2 = 0 then ⌊y⌋ else ⌊y⌋ + 1

/-- Exponent of the spacing of binary32 values in the binade of `x`: the
binade exponent, at least `-126`, less the 23 fraction bits. -/
def ulpExponent (x : ℚ) : Int := max (Int.log 2 |x|) (-126) - 23

/-- Rounding of a rational to binary32, without the overflow to infinity. -/
def fl32 (x : ℚ) : ℚ := (roundHalfEven (x / 2 ^ ulpExponent x) : ℚ) * 2 ^ ulpExponent x

/-- Exact value of the binary32 literal `0.4f`. -/
def lit_0_4f : ℚ := 13421773 / 33554432

/-- Exact value of the binary32 literal `0.3f`. -/
def lit_0_3f : ℚ := 5033165 / 16777216

/-- Exact value of the binary32 literal `0.001f`. -/
def lit_0_001f : ℚ := 8589935 / 8589934592

/-- The data members of `NeonSynth` apart from the stream handle. The three
atomics are plain fields: a load reads the field, a store writes it. -/
structure NeonSynth where
  mWavetable : List ℚ
  mMasterGain : ℚ
  mPhase : ℚ
  mCurrentAmplitude : ℚ
  mCurrentFrequency : ℚ
  mTargetFrequency : ℚ
  mTargetAmplitude : ℚ
  mCallbackCounter : Int
  mIsSilent : Bool
  deriving DecidableEq, Repr

/-- `const int kTableSize = 4096;` -/
def kTableSize : Int := 4096

/-- Constructor `NeonSynth()` with the member initialisers of lines 131 to 138
(`mMasterGain{0.3f}` with the exact value of the literal). The constructor
fills the table with rounded values of the sine function; here the filled
table is an argument. -/
def NeonSynth.new (table : List ℚ) : NeonSynth :=
  { mWavetable := table
    mMasterGain := lit_0_3f
    mPhase := 0
    mCurrentAmplitude := 0
    mCurrentFrequency := 440
    mTargetFrequency := 440
    mTargetAmplitude := 0
    mCallbackCounter := 0
    mIsSilent := false }

/-- `void setParameters(float frequency, float amplitude)` -/
def NeonSynth.setParameters (s : NeonSynth) (frequency amplitude : ℚ) : NeonSynth :=
  { s with mTargetFrequency := frequency, mTargetAmplitude := amplitude }

/-- `void setSensorModulation(float intensity)`: the product and the sum are
binary32 operations, each rounded. -/
def NeonSynth.setSensorModulation (s : NeonSynth) (intensity : ℚ) : NeonSynth :=
  let targetFreq := fl32 (100 + fl32 (intensity * 200))
  { s with mTargetFrequency := targetFreq }

/-- `void setMasterVolume(float volume)`: a binary32 product with the literal
`0.4f`, rounded. -/
def NeonSynth.setMasterVolume (s : NeonSynth) (volume : ℚ) : NeonSynth :=
  let safeGain := fl32 (volume * lit_0_4f)
  { s with mMasterGain := safeGain }

/-- `void updateTargets(float freq, float amp)` -/
def NeonSynth.updateTargets (s : NeonSynth) (freq amp : ℚ) : NeonSynth :=
  { s with mTargetFrequency := freq, mTargetAmplitude := amp }

/-- `static_cast<int>(x)`: truncation toward zero. -/
def truncToInt (x : ℚ) : Int := if 0 ≤ x then ⌊x⌋ else ⌈x⌉

/-- `static_cast<int>(mPhase) & (kTableSize - 1)`: masking a two's-complement
integer with `4095` is its non-negative remainder modulo `4096`. -/
def tableIndex (phase : ℚ) : Nat := (truncToInt phase % kTableSize).toNat

/-- One iteration of the render loop (lines 109 to 118). Returns the state after
the iteration and the sample stored in `floatData[i]`. -/
def NeonSynth.renderSample (s : NeonSynth) (ampStep freqStep currentMasterGain phaseScalar : ℚ) :
    NeonSynth × ℚ :=
  let amp := s.mCurrentAmplitude + ampStep
  let freq := s.mCurrentFrequency + freqStep
  let index := tableIndex s.mPhase
  let rawSample := s.mWavetable.getD index 0
  let finalSample := rawSample * amp * currentMasterGain
  let phase := s.mPhase + freq * phaseScalar
  let phase := if phase ≥ (kTableSize : ℚ) then phase - (kTableSize : ℚ) else phase
  ({ s with mCurrentAmplitude := amp, mCurrentFrequency := freq, mPhase := phase }, finalSample)

/-- The loop `for (int i = 0; i < numFrames; ++i)` run for the given number of
iterations. Entry `i` of the result is the state after iteration `i` together
with the sample written to `floatData[i]`. -/
def NeonSynth.renderLoop (ampStep freqStep currentMasterGain phaseScalar : ℚ) :
    Nat → NeonSynth → List (NeonSynth × ℚ)
  | 0, _ => []
  | n + 1, s =>
    let r := s.renderSample ampStep freqStep currentMasterGain phaseScalar
    r :: NeonSynth.renderLoop ampStep freqStep currentMasterGain phaseScalar n r.1

/-- State at loop exit: the state of the last iteration, or the entry state when
the loop body never ran. -/
def lastState (s : NeonSynth) (iterations : List (NeonSynth × ℚ)) : NeonSynth :=
  match iterations.getLast? with
  | some r => r.1
  | none => s

/-- The `float` increment `(targetFreq - mCurrentFrequency) / numFrames`. -/
def NeonSynth.freqStep (s : NeonSynth) (numFrames : Int) : ℚ :=
  (s.mTargetFrequency - s.mCurrentFrequency) / (numFrames : ℚ)

/-- The `float` increment `(targetAmp - mCurrentAmplitude) / numFrames`. -/
def NeonSynth.ampStep (s : NeonSynth) (numFrames : Int) : ℚ :=
  (s.mTargetAmplitude - s.mCurrentAmplitude) / (numFrames : ℚ)

/-- The test of line 90: both the target and the current amplitude are at most
`0.001f`, the threshold being modelled by `1/1000`. The model and the code
choose the same branch unless an amplitude equals `0.001f` itself
(`lit_0_001f`). -/
def NeonSynth.silentPath (s : NeonSynth) : Bool :=
  decide (s.mTargetAmplitude ≤ 1 / 1000 ∧ s.mCurrentAmplitude ≤ 1 / 1000)

/-- Lines 101 to 119 of `onAudioReady`: clear `mIsSilent`, compute the steps and
run the loop. One entry per frame. -/
def NeonSynth.rampIterations (s : NeonSynth) (sampleRate numFrames : Int) :
    List (NeonSynth × ℚ) :=
  let s1 := { s with mIsSilent := false }
  let phaseScalar : ℚ := (kTableSize : ℚ) / (sampleRate : ℚ)
  NeonSynth.renderLoop (s.ampStep numFrames) (s.freqStep numFrames) s.mMasterGain phaseScalar
    numFrames.toNat s1

/-- `onAudioReady(oboeStream, audioData, numFrames)`, where `sampleRate` is
`oboeStream->getSampleRate()`. Returns the new state and the samples written to
`floatData[0 .. numFrames)`. `std::fill_n` with a count that is not positive
writes nothing, and the loop does not run for such a count. -/
def NeonSynth.onAudioReady (s : NeonSynth) (sampleRate numFrames : Int) : NeonSynth × List ℚ :=
  let s0 := { s with mCallbackCounter := wrapInt32 (s.mCallbackCounter + 1) }
  let targetAmp := s0.mTargetAmplitude
  let targetFreq := s0.mTargetFrequency
  if s0.silentPath then
    if !s0.mIsSilent then
      ({ s0 with mCurrentAmplitude := 0, mIsSilent := true }, List.replicate numFrames.toNat 0)
    else
      (s0, List.replicate numFrames.toNat 0)
  else
    let iterations := s0.rampIterations sampleRate numFrames
    let s2 := lastState { s0 with mIsSilent := false } iterations
    ({ s2 with mCurrentAmplitude := targetAmp, mCurrentFrequency := targetFreq },
      iterations.map Prod.snd)

/-- The phase accumulator after each sample of one `onAudioReady` call; empty on
the silent path, where the loop is not entered. -/
def NeonSynth.blockPhases (s : NeonSynth) (sampleRate numFrames : Int) : List ℚ :=
  let s0 := { s with mCallbackCounter := wrapInt32 (s.mCallbackCounter + 1) }
  if s0.silentPath then []
  else (s0.rampIterations sampleRate numFrames).map (fun r => r.1.mPhase)

/-- The value of `mCurrentFrequency` used for each sample of one `onAudioReady`
call on the ramp path (the value after the increment of line 110). -/
def NeonSynth.blockFrequencies (s : NeonSynth) (sampleRate numFrames : Int) : List ℚ :=
  let s0 := { s with mCallbackCounter := wrapInt32 (s.mCallbackCounter + 1) }
  (s0.rampIterations sampleRate numFrames).map (fun r => r.1.mCurrentFrequency)

/-- The renderer-owned part of the state: phase, current frequency, current
amplitude and the silence flag. -/
structure OscillatorState where
  phase : ℚ
  currentFrequency : ℚ
  currentAmplitude : ℚ
  isSilent : Bool
  deriving DecidableEq, Repr

/-- Projection of a synth onto its oscillator state. -/
def NeonSynth.oscillatorState (s : NeonSynth) : OscillatorState :=
  { phase := s.mPhase
    currentFrequency := s.mCurrentFrequency
    currentAmplitude := s.mCurrentAmplitude
    isSilent := s.mIsSilent }

/-- A call on a `NeonSynth` that touches the modelled members. -/
inductive SynthCall where
  | setParameters (frequency amplitude : ℚ)
  | setSensorModulation (intensity : ℚ)
  | setMasterVolume (volume : ℚ)
  | updateTargets (freq amp : ℚ)
  | onAudioReady (sampleRate numFrames : Int)
  deriving DecidableEq, Repr

/-- Perform one call. A render call also yields the block it wrote. -/
def NeonSynth.call (s : NeonSynth) : SynthCall → NeonSynth × Option (List ℚ)
  | SynthCall.setParameters f a => (s.setParameters f a, none)
  | SynthCall.setSensorModulation m => (s.setSensorModulation m, none)
  | SynthCall.setMasterVolume v => (s.setMasterVolume v, none)
  | SynthCall.updateTargets f a => (s.updateTargets f a, none)
  | SynthCall.onAudioReady sr n => ((s.onAudioReady sr n).1, some (s.onAudioReady sr n).2)

/-- Perform a sequence of calls. Returns the final state and the rendered
blocks, in order. -/
def NeonSynth.run : NeonSynth → List SynthCall → NeonSynth × List (List ℚ)
  | s, [] => (s, [])
  | s, c :: cs =>
    let r := s.call c
    let rest := NeonSynth.run r.1 cs
    match r.2 with
    | some block => (rest.1, block :: rest.2)
    | none => (rest.1, rest.2)

/-- A state the program can be in: the constructed synth after some sequence of
calls. -/
def NeonSynth.Reachable (s : NeonSynth) : Prop :=
  ∃ (table : List ℚ) (calls : List SynthCall), s = ((NeonSynth.new table).run calls).1

/-- The call does not store a non-zero target amplitude. -/
def SynthCall.keepsTargetAmplitudeZero : SynthCall → Bool
  | SynthCall.setParameters _ a => decide (a = 0)
  | SynthCall.updateTargets _ a => decide (a = 0)
  | _ => true

/-- Render consecutive blocks with the given frame counts, no other call in
between, and collect the phase after every sample of every block. -/
def NeonSynth.renderBlocksPhases (sampleRate : Int) : NeonSynth → List Int → List ℚ
  | _, [] => []
  | s, n :: ns =>
    s.blockPhases sampleRate n ++
      NeonSynth.renderBlocksPhases sampleRate (s.onAudioReady sampleRate n).1 ns

/-- Render consecutive blocks with the given frame counts, no other call in
between, and return the state after the last one. -/
def NeonSynth.renderBlocks (sampleRate : Int) : NeonSynth → List Int → NeonSynth
  | s, [] => s
  | s, n :: ns => NeonSynth.renderBlocks sampleRate (s.onAudioReady sampleRate n).1 ns

/-- The members a loop iteration never writes. -/
def sameParameters (s r : NeonSynth) : Prop :=
  r.mWavetable = s.mWavetable ∧ r.mMasterGain = s.mMasterGain
    ∧ r.mTargetFrequency = s.mTargetFrequency ∧ r.mTargetAmplitude = s.mTargetAmplitude
    ∧ r.mIsSilent = s.mIsSilent

/-- The silence flag is set only together with a zero current amplitude. -/
def NeonSynth.silentInvariant (s : NeonSynth) : Prop :=
  s.mIsSilent = true → s.mCurrentAmplitude = 0

/-- The renderer's entry condition for staying silent: target amplitude 0 and
current amplitude at most `0.001f`. -/
def NeonSynth.quiet (s : NeonSynth) : Prop :=
  s.mTargetAmplitude = 0 ∧ s.mCurrentAmplitude ≤ 1 / 1000

/-- A table of 4096 zero entries, used where the table contents play no
role. -/
def flatTable : List ℚ := List.replicate 4096 0

/-- The constructed synth after `setParameters(880, 0.5)`: current frequency
440, current amplitude 0, targets 880 and 0.5. -/
def rampExample : NeonSynth := (NeonSynth.new flatTable).setParameters 880 (1 / 2)

/-- The constructed synth after `setParameters(72000, 0.5)` and one rendered
block of a single frame at 48000 Hz. -/
def overdriven : NeonSynth :=
  (((NeonSynth.new flatTable).setParameters 72000 (1 / 2)).onAudioReady 48000 1).1

/-- A steady state: the constructed synth after `setParameters(440, 0.5)` and
one render call with zero frames, which snaps the current amplitude to 0.5.
Current frequency and amplitude equal the targets 440 and 0.5; the phase is
0. -/
def steadyExample : NeonSynth :=
  (((NeonSynth.new flatTable).setParameters 440 (1 / 2)).onAudioReady 48000 0).1

/-! ## Lemmas on the tracker -/

theorem wrapInt32_id (x : Int) (h0 : -2147483648 ≤ x) (h1 : x < 2147483648) :
    wrapInt32 x = x := by
  unfold wrapInt32
  omega

theorem feed_nil (t : NeonSensors) : t.feed [] = (t, []) := rfl

theorem feed_cons (t : NeonSensors) (x : ℚ) (xs : List ℚ) :
    t.feed (x :: xs) = (((t.pollStep x).1.feed xs).1, (t.pollStep x).2 :: ((t.pollStep x).1.feed xs).2) := rfl

theorem pollStep_still (t : NeonSensors) (x : ℚ) (hx : x < 1 / 10)
    (h0 : 0 ≤ t.mStillnessFrameCounter) (h1 : t.mStillnessFrameCounter + 1 < 2147483648) :
    t.pollStep x =
      ({ t with mStillnessFrameCounter := t.mStillnessFrameCounter + 1 },
        if t.mStillnessFrameCounter + 1 = 50 then (if t.mSynth then [HwRequest.suspend] else [])
        else []) := by
  unfold NeonSensors.pollStep
  rw [if_pos hx]
  simp only [kStillnessThreshold]
  rw [wrapInt32_id _ (by omega) h1]
  split <;> rfl

theorem pollStep_moving (t : NeonSensors) (x : ℚ) (hx : ¬ x < 1 / 10) :
    t.pollStep x =
      ({ t with mStillnessFrameCounter := 0 },
        if 50 ≤ t.mStillnessFrameCounter then (if t.mSynth then [HwRequest.resume] else [])
        else []) := by
  unfold NeonSensors.pollStep
  rw [if_neg hx]
  simp only [kStillnessThreshold, ge_iff_le]

theorem suspendCount_cons (l : List HwRequest) (trace : List (List HwRequest)) :
    suspendCount (l :: trace) = l.count HwRequest.suspend + suspendCount trace := by
  simp [suspendCount, List.count_append]

theorem resumeCount_cons (l : List HwRequest) (trace : List (List HwRequest)) :
    resumeCount (l :: trace) = l.count HwRequest.resume + resumeCount trace := by
  simp [resumeCount, List.count_append]

/-- A run of still samples from a non-negative counter that stays below `2^31`:
the counter grows by one per sample and the only request is the suspend of the
step that brings it to 50. -/
theorem feed_still (samples : List ℚ) (hstill : ∀ x ∈ samples, x < 1 / 10) :
    ∀ t : NeonSensors, 0 ≤ t.mStillnessFrameCounter →
      t.mStillnessFrameCounter + samples.length < 2147483648 →
      t.feed samples =
        ({ t with mStillnessFrameCounter := t.mStillnessFrameCounter + samples.length },
          (List.range samples.length).map (fun (i : Nat) =>
            if t.mStillnessFrameCounter + (i : Int) + 1 = 50 then
              (if t.mSynth then [HwRequest.suspend] else [])
            else [])) := by
  induction samples with
  | nil => intro t _ _; simp [feed_nil]
  | cons x xs ih =>
    intro t h0 h1
    have hx : x < 1 / 10 := hstill x (List.mem_cons_self _ _)
    have hxs : ∀ y ∈ xs, y < 1 / 10 := fun y hy => hstill y (List.mem_cons_of_mem _ hy)
    simp only [List.length_cons, Nat.cast_add, Nat.cast_one] at h1
    rw [feed_cons, pollStep_still t x hx h0 (by omega)]
    rw [ih hxs _ (by simp only; omega) (by simp only; omega)]
    simp only [List.length_cons, Nat.cast_add, Nat.cast_one, List.range_succ_eq_map,
      List.map_cons, List.map_map, Nat.cast_zero, add_zero]
    refine Prod.ext ?_ ?_
    · simp only
      congr 1
      omega
    · simp only [List.cons.injEq, true_and]
      apply List.map_congr_left
      intro i _
      simp only [Function.comp_apply, Nat.succ_eq_add_one, Nat.cast_add, Nat.cast_one]
      have e : t.mStillnessFrameCounter + 1 + (i : Int) + 1
          = t.mStillnessFrameCounter + ((i : Int) + 1) + 1 := by omega
      rw [e]

theorem suspendCount_debounce (n : Nat) :
    suspendCount ((List.range n).map (fun i => if i + 1 = 50 then [HwRequest.suspend] else []))
      = if n ≤ 49 then 0 else 1 := by
  induction n with
  | zero => simp [suspendCount]
  | succ n ih =>
    have hsplit : ∀ (a : List (List HwRequest)) (l : List HwRequest),
        suspendCount (a ++ [l]) = suspendCount a + l.count HwRequest.suspend := by
      intro a l
      simp [suspendCount, List.count_append]
    rw [List.range_succ, List.map_append, List.map_singleton, hsplit, ih]
    by_cases h : n + 1 = 50
    · rw [if_pos h]
      have : n = 49 := by omega
      subst this
      simp
    · rw [if_neg h]
      by_cases h2 : n ≤ 49
      · have h3 : n + 1 ≤ 49 := by omega
        simp [h2, h3]
      · have h3 : ¬ n + 1 ≤ 49 := by omega
        simp [h2, h3]

theorem resumeCount_debounce (n : Nat) :
    resumeCount ((List.range n).map (fun i => if i + 1 = 50 then [HwRequest.suspend] else []))
      = 0 := by
  unfold resumeCount
  rw [List.count_eq_zero]
  intro hmem
  rw [List.mem_flatten] at hmem
  obtain ⟨l, hl, hr⟩ := hmem
  rw [List.mem_map] at hl
  obtain ⟨i, _, rfl⟩ := hl
  split at hr <;> simp at hr

/-- The invariant of the tracker over an arbitrary run that cannot overflow the
counter. -/
theorem feed_invariant (samples : List ℚ) :
    ∀ t : NeonSensors, t.mSynth = true → 0 ≤ t.mStillnessFrameCounter →
      t.mStillnessFrameCounter + samples.length < 2147483648 →
      (∀ step ∈ (t.feed samples).2, step.length ≤ 1) ∧
      (t.feed samples).1.mSynth = true ∧
      0 ≤ (t.feed samples).1.mStillnessFrameCounter ∧
      (t.feed samples).1.mStillnessFrameCounter ≤ t.mStillnessFrameCounter + samples.length ∧
      alternates (decide (t.mStillnessFrameCounter < 50)) (t.feed samples).2.flatten = true ∧
      suspendCount (t.feed samples).2 + (if 50 ≤ t.mStillnessFrameCounter then 1 else 0)
        = resumeCount (t.feed samples).2
          + (if 50 ≤ (t.feed samples).1.mStillnessFrameCounter then 1 else 0) := by
  induction samples with
  | nil =>
    intro t hs h0 _
    simp [feed_nil, hs, h0, alternates, suspendCount, resumeCount]
  | cons x xs ih =>
    intro t hs h0 h1
    obtain ⟨syn, c⟩ := t
    simp only at hs h0 h1
    subst hs
    simp only [List.length_cons, Nat.cast_add, Nat.cast_one] at h1 ⊢
    rw [feed_cons]
    by_cases hx : x < 1 / 10
    · rw [pollStep_still _ x hx h0 (by simp only; omega)]
      obtain ⟨i1, i2, i3, i4, i5, i6⟩ :=
        ih { mSynth := true, mStillnessFrameCounter := c + 1 } rfl
          (by simp only; omega) (by simp only; omega)
      simp only [if_true] at i1 i2 i3 i4 i5 i6 ⊢
      by_cases h50 : c + 1 = 50
      · have hc : c = 49 := by omega
        subst hc
        have e50 : (49 : Int) + 1 = 50 := rfl
        simp only [e50] at i1 i2 i3 i4 i5 i6 ⊢
        have hlt : ((49 : Int) < 50) = True := by decide
        have hnlt : ((50 : Int) < 50) = False := by decide
        have hge : ((50 : Int) ≤ 50) = True := by decide
        have hnge : ((50 : Int) ≤ 49) = False := by decide
        simp only [if_true, hlt, hnlt, hge, hnge, decide_True, decide_False, if_false,
          List.flatten_cons, List.singleton_append,
          alternates, suspendCount_cons, resumeCount_cons, List.length_cons, List.length_nil,
          List.mem_cons, forall_eq_or_imp, List.count_cons_self, List.count_nil,
          add_zero, zero_add] at i5 i6 ⊢
        refine ⟨⟨by omega, i1⟩, i2, i3, by omega, i5, ?_⟩
        have hr : List.count HwRequest.resume [HwRequest.suspend] = 0 := by decide
        rw [hr]
        omega
      · have hiff : (c + 1 < 50) ↔ (c < 50) := by omega
        have hiff2 : ((50 : Int) ≤ c + 1) ↔ ((50 : Int) ≤ c) := by omega
        simp only [h50, if_false, List.flatten_cons, List.nil_append, suspendCount_cons,
          resumeCount_cons, List.count_nil, zero_add, List.mem_cons, forall_eq_or_imp,
          List.length_nil] at i5 i6 ⊢
        simp only [hiff, hiff2] at i5 i6
        exact ⟨⟨by omega, i1⟩, i2, i3, by omega, i5, i6⟩
    · rw [pollStep_moving _ x hx]
      obtain ⟨i1, i2, i3, i4, i5, i6⟩ :=
        ih { mSynth := true, mStillnessFrameCounter := 0 } rfl (by simp only; omega)
          (by simp only; omega)
      simp only [if_true] at i1 i2 i3 i4 i5 i6 ⊢
      have h050 : ¬ ((50 : Int) ≤ 0) := by omega
      simp only [h050, if_false, add_zero, zero_add] at i6
      by_cases h50 : (50 : Int) ≤ c
      · have hnlt : ¬ (c < 50) := by omega
        simp only [h50, if_true, hnlt, decide_False, List.flatten_cons, List.singleton_append,
          alternates, suspendCount_cons, resumeCount_cons, List.length_cons, List.length_nil,
          List.mem_cons, forall_eq_or_imp] at i5 ⊢
        refine ⟨⟨by omega, i1⟩, i2, i3, by omega, ?_, ?_⟩
        · simpa using i5
        · simp
          omega
      · have hlt : c < 50 := by omega
        simp only [h50, if_false, hlt, decide_True, List.flatten_cons, List.nil_append,
          suspendCount_cons, resumeCount_cons, List.count_nil, zero_add, add_zero,
          List.mem_cons, forall_eq_or_imp, List.length_nil] at i5 ⊢
        refine ⟨⟨by omega, i1⟩, i2, i3, by omega, ?_, i6⟩
        simpa using i5

theorem feed_append_fst (xs ys : List ℚ) :
    ∀ t : NeonSensors, (t.feed (xs ++ ys)).1 = ((t.feed xs).1.feed ys).1 := by
  induction xs with
  | nil => intro t; rfl
  | cons x xs ih =>
    intro t
    rw [List.cons_append, feed_cons, feed_cons]
    exact ih _

/-! ## Lemmas on binary32 rounding -/

theorem renderLoop_zero (a f g p : ℚ) (s : NeonSynth) :
    NeonSynth.renderLoop a f g p 0 s = [] := rfl

theorem renderLoop_succ (a f g p : ℚ) (n : Nat) (s : NeonSynth) :
    NeonSynth.renderLoop a f g p (n + 1) s
      = s.renderSample a f g p :: NeonSynth.renderLoop a f g p n (s.renderSample a f g p).1 := rfl

theorem renderLoop_length (a f g p : ℚ) :
    ∀ (n : Nat) (s : NeonSynth), (NeonSynth.renderLoop a f g p n s).length = n := by
  intro n
  induction n with
  | zero => intro s; rfl
  | succ n ih => intro s; rw [renderLoop_succ, List.length_cons, ih]

/-- A property of the state that one loop iteration preserves holds after every
iteration. -/
theorem renderLoop_preserves (a f g p : ℚ) (P : NeonSynth → Prop)
    (hstep : ∀ s, P s → P (s.renderSample a f g p).1) :
    ∀ (n : Nat) (s : NeonSynth), P s → ∀ r ∈ NeonSynth.renderLoop a f g p n s, P r.1 := by
  intro n
  induction n with
  | zero => intro s _ r hr; simp [renderLoop_zero] at hr
  | succ n ih =>
    intro s hs r hr
    rw [renderLoop_succ, List.mem_cons] at hr
    rcases hr with rfl | hr
    · exact hstep s hs
    · exact ih _ (hstep s hs) r hr

theorem lastState_preserves (P : NeonSynth → Prop) (s : NeonSynth)
    (l : List (NeonSynth × ℚ)) (hs : P s) (hl : ∀ r ∈ l, P r.1) : P (lastState s l) := by
  unfold lastState
  cases h : l.getLast? with
  | none => exact hs
  | some r => exact hl r (List.mem_of_getLast?_eq_some h)

theorem lastState_nil (s : NeonSynth) : lastState s [] = s := rfl

/-- The frequency after iteration `i` (counting from 0) is the entry frequency
plus `i + 1` steps. -/
theorem renderLoop_frequency (a f g p : ℚ) :
    ∀ (n : Nat) (s : NeonSynth) (i : Nat), i < n →
      ((NeonSynth.renderLoop a f g p n s).map (fun r => r.1.mCurrentFrequency))[i]?
        = some (s.mCurrentFrequency + ((i : ℚ) + 1) * f) := by
  intro n
  induction n with
  | zero => intro s i hi; omega
  | succ n ih =>
    intro s i hi
    rw [renderLoop_succ, List.map_cons]
    cases i with
    | zero =>
      simp [NeonSynth.renderSample]
    | succ i =>
      rw [List.getElem?_cons_succ, ih _ i (by omega)]
      simp only [NeonSynth.renderSample, Nat.cast_add, Nat.cast_one]
      congr 1
      ring

/-- One iteration keeps the phase in `[0, 4096)` when the phase increment of
that iteration lies in `[0, 4096]`. -/
theorem renderSample_phase (s : NeonSynth) (a f g p : ℚ)
    (h0 : 0 ≤ s.mPhase) (h1 : s.mPhase < 4096)
    (hinc0 : 0 ≤ (s.mCurrentFrequency + f) * p) (hinc1 : (s.mCurrentFrequency + f) * p ≤ 4096) :
    0 ≤ (s.renderSample a f g p).1.mPhase ∧ (s.renderSample a f g p).1.mPhase < 4096 := by
  simp only [NeonSynth.renderSample, kTableSize, Int.cast_ofNat, ge_iff_le]
  split
  · constructor <;> linarith
  · constructor <;> linarith

theorem silentPath_iff (s : NeonSynth) :
    s.silentPath = true ↔ (s.mTargetAmplitude ≤ 1 / 1000 ∧ s.mCurrentAmplitude ≤ 1 / 1000) := by
  simp [NeonSynth.silentPath]

/-- The silent branch of `onAudioReady`. -/
theorem onAudioReady_silent (s : NeonSynth) (sr n : Int) (h : s.silentPath = true) :
    s.onAudioReady sr n =
      (if s.mIsSilent = false then
        { s with mCallbackCounter := wrapInt32 (s.mCallbackCounter + 1),
                 mCurrentAmplitude := 0, mIsSilent := true }
       else { s with mCallbackCounter := wrapInt32 (s.mCallbackCounter + 1) },
       List.replicate n.toNat 0) := by
  have h0 : ({ s with mCallbackCounter := wrapInt32 (s.mCallbackCounter + 1) } :
      NeonSynth).silentPath = true := h
  unfold NeonSynth.onAudioReady
  simp only [h0, if_true]
  cases hsil : s.mIsSilent <;> simp

/-- The ramp branch of `onAudioReady`. -/
theorem onAudioReady_ramp (s : NeonSynth) (sr n : Int) (h : s.silentPath = false) :
    s.onAudioReady sr n =
      ({ lastState { s with mCallbackCounter := wrapInt32 (s.mCallbackCounter + 1),
                            mIsSilent := false }
            (({ s with mCallbackCounter := wrapInt32 (s.mCallbackCounter + 1) } :
              NeonSynth).rampIterations sr n) with
          mCurrentAmplitude := s.mTargetAmplitude, mCurrentFrequency := s.mTargetFrequency },
        (({ s with mCallbackCounter := wrapInt32 (s.mCallbackCounter + 1) } :
              NeonSynth).rampIterations sr n).map Prod.snd) := by
  have h0 : ({ s with mCallbackCounter := wrapInt32 (s.mCallbackCounter + 1) } :
      NeonSynth).silentPath = false := h
  unfold NeonSynth.onAudioReady
  simp only [h0]
  rfl

theorem rampIterations_sameParameters (s : NeonSynth) (sr n : Int) :
    ∀ r ∈ s.rampIterations sr n, sameParameters { s with mIsSilent := false } r.1 := by
  unfold NeonSynth.rampIterations
  apply renderLoop_preserves _ _ _ _ (fun r => sameParameters { s with mIsSilent := false } r)
  · intro r hr
    exact hr
  · exact ⟨rfl, rfl, rfl, rfl, rfl⟩

/-- `onAudioReady` never writes the parameter channel or the table. -/
theorem onAudioReady_targets (s : NeonSynth) (sr n : Int) :
    (s.onAudioReady sr n).1.mTargetFrequency = s.mTargetFrequency
      ∧ (s.onAudioReady sr n).1.mTargetAmplitude = s.mTargetAmplitude
      ∧ (s.onAudioReady sr n).1.mMasterGain = s.mMasterGain
      ∧ (s.onAudioReady sr n).1.mWavetable = s.mWavetable := by
  cases h : s.silentPath
  · rw [onAudioReady_ramp s sr n h]
    simp only
    have hl := lastState_preserves
      (fun r => sameParameters { s with mCallbackCounter := wrapInt32 (s.mCallbackCounter + 1),
                                        mIsSilent := false } r)
      { s with mCallbackCounter := wrapInt32 (s.mCallbackCounter + 1), mIsSilent := false }
      (({ s with mCallbackCounter := wrapInt32 (s.mCallbackCounter + 1) } :
              NeonSynth).rampIterations sr n)
      ⟨rfl, rfl, rfl, rfl, rfl⟩ (rampIterations_sameParameters _ sr n)
    obtain ⟨h1, h2, h3, h4, _⟩ := hl
    exact ⟨h3, h4, h2, h1⟩
  · rw [onAudioReady_silent s sr n h]
    split <;> exact ⟨rfl, rfl, rfl, rfl⟩

/-- After a block on the ramp path the silence flag is clear. -/
theorem onAudioReady_ramp_isSilent (s : NeonSynth) (sr n : Int) (h : s.silentPath = false) :
    (s.onAudioReady sr n).1.mIsSilent = false := by
  rw [onAudioReady_ramp s sr n h]
  simp only
  have hl := lastState_preserves
    (fun r => sameParameters { s with mCallbackCounter := wrapInt32 (s.mCallbackCounter + 1),
                                      mIsSilent := false } r)
    { s with mCallbackCounter := wrapInt32 (s.mCallbackCounter + 1), mIsSilent := false }
    (({ s with mCallbackCounter := wrapInt32 (s.mCallbackCounter + 1) } :
            NeonSynth).rampIterations sr n)
    ⟨rfl, rfl, rfl, rfl, rfl⟩ (rampIterations_sameParameters _ sr n)
  exact hl.2.2.2.2

/-- The phase increment `f * (4096 / sampleRate)` lies in `[0, 4096]` when
`0 < f ≤ sampleRate`. -/
theorem increment_bounds (f : ℚ) (sr : Int) (hf : 0 < f) (hfsr : f ≤ (sr : ℚ)) :
    0 ≤ f * ((kTableSize : ℚ) / (sr : ℚ)) ∧ f * ((kTableSize : ℚ) / (sr : ℚ)) ≤ 4096 := by
  have hsr : (0 : ℚ) < (sr : ℚ) := lt_of_lt_of_le hf hfsr
  have hk : (kTableSize : ℚ) = 4096 := by simp [kTableSize]
  rw [hk]
  have e : f * (4096 / (sr : ℚ)) = 4096 * (f / (sr : ℚ)) := by ring
  rw [e]
  have h1 : f / (sr : ℚ) ≤ 1 := (div_le_one hsr).mpr hfsr
  have h0 : 0 ≤ f / (sr : ℚ) := le_of_lt (div_pos hf hsr)
  constructor
  · positivity
  · linarith

/-- One block from a state whose current frequency already equals the target:
every phase written during the block, and the phase left behind, is in
`[0, 4096)`, and the frequency is still at the target. -/
theorem block_phase (s : NeonSynth) (sr n : Int)
    (hsteady : s.mCurrentFrequency = s.mTargetFrequency)
    (hinc0 : 0 ≤ s.mTargetFrequency * ((kTableSize : ℚ) / (sr : ℚ)))
    (hinc1 : s.mTargetFrequency * ((kTableSize : ℚ) / (sr : ℚ)) ≤ 4096)
    (h0 : 0 ≤ s.mPhase) (h1 : s.mPhase < 4096) :
    (∀ x ∈ s.blockPhases sr n, 0 ≤ x ∧ x < 4096)
      ∧ (s.onAudioReady sr n).1.mCurrentFrequency = (s.onAudioReady sr n).1.mTargetFrequency
      ∧ 0 ≤ (s.onAudioReady sr n).1.mPhase ∧ (s.onAudioReady sr n).1.mPhase < 4096 := by
  have hstep : s.freqStep n = 0 := by
    simp [NeonSynth.freqStep, hsteady]
  have hloop : ∀ r ∈ ({ s with mCallbackCounter := wrapInt32 (s.mCallbackCounter + 1) } :
      NeonSynth).rampIterations sr n,
      r.1.mCurrentFrequency = s.mTargetFrequency ∧ 0 ≤ r.1.mPhase ∧ r.1.mPhase < 4096 := by
    unfold NeonSynth.rampIterations
    apply renderLoop_preserves _ _ _ _
      (fun r => r.mCurrentFrequency = s.mTargetFrequency ∧ 0 ≤ r.mPhase ∧ r.mPhase < 4096)
    · intro r hr
      obtain ⟨hf, hp0, hp1⟩ := hr
      have hfs : ({ s with mCallbackCounter := wrapInt32 (s.mCallbackCounter + 1) } :
          NeonSynth).freqStep n = 0 := hstep
      rw [hfs]
      refine ⟨?_, renderSample_phase r _ 0 _ _ hp0 hp1 ?_ ?_⟩
      · simp [NeonSynth.renderSample, hf]
      · rw [add_zero, hf]; exact hinc0
      · rw [add_zero, hf]; exact hinc1
    · exact ⟨hsteady, h0, h1⟩
  cases h : s.silentPath
  · refine ⟨?_, ?_, ?_⟩
    · intro x hx
      have h0s : ({ s with mCallbackCounter := wrapInt32 (s.mCallbackCounter + 1) } :
          NeonSynth).silentPath = false := h
      simp only [NeonSynth.blockPhases, h0s, Bool.false_eq_true, if_false, List.mem_map] at hx
      obtain ⟨r, hr, rfl⟩ := hx
      exact (hloop r hr).2
    · rw [(onAudioReady_targets s sr n).1, onAudioReady_ramp s sr n h]
    · rw [onAudioReady_ramp s sr n h]
      simp only
      have hl := lastState_preserves (fun r => 0 ≤ r.mPhase ∧ r.mPhase < 4096)
        { s with mCallbackCounter := wrapInt32 (s.mCallbackCounter + 1), mIsSilent := false }
        (({ s with mCallbackCounter := wrapInt32 (s.mCallbackCounter + 1) } :
            NeonSynth).rampIterations sr n)
        ⟨h0, h1⟩ (fun r hr => (hloop r hr).2)
      exact hl
  · refine ⟨?_, ?_, ?_⟩
    · intro x hx
      have h0s : ({ s with mCallbackCounter := wrapInt32 (s.mCallbackCounter + 1) } :
          NeonSynth).silentPath = true := h
      simp [NeonSynth.blockPhases, h0s] at hx
    · rw [(onAudioReady_targets s sr n).1, onAudioReady_silent s sr n h]
      split <;> exact hsteady
    · rw [onAudioReady_silent s sr n h]
      split <;> exact ⟨h0, h1⟩

/-- With a target amplitude above `0.001f` the block takes the ramp path and
records one phase per frame. -/
theorem blockPhases_length (s : NeonSynth) (sr n : Int) (h : 1 / 1000 < s.mTargetAmplitude) :
    (s.blockPhases sr n).length = n.toNat := by
  have h0s : ({ s with mCallbackCounter := wrapInt32 (s.mCallbackCounter + 1) } :
      NeonSynth).silentPath = false := by
    cases hp : ({ s with mCallbackCounter := wrapInt32 (s.mCallbackCounter + 1) } :
      NeonSynth).silentPath
    · rfl
    · have := ((silentPath_iff _).mp hp).1
      exact absurd this (not_le.mpr h)
  simp only [NeonSynth.blockPhases, h0s, Bool.false_eq_true, if_false, List.length_map,
    NeonSynth.rampIterations, renderLoop_length]

/-- Consecutive blocks from a state whose current frequency equals the target:
all phases stay in `[0, 4096)`. -/
theorem renderBlocks_phase (sr : Int) (F : ℚ)
    (hinc0 : 0 ≤ F * ((kTableSize : ℚ) / (sr : ℚ)))
    (hinc1 : F * ((kTableSize : ℚ) / (sr : ℚ)) ≤ 4096) :
    ∀ (frames : List Int) (s : NeonSynth), s.mTargetFrequency = F →
      s.mCurrentFrequency = s.mTargetFrequency → 0 ≤ s.mPhase → s.mPhase < 4096 →
      (∀ x ∈ NeonSynth.renderBlocksPhases sr s frames, 0 ≤ x ∧ x < 4096)
        ∧ 0 ≤ (NeonSynth.renderBlocks sr s frames).mPhase
        ∧ (NeonSynth.renderBlocks sr s frames).mPhase < 4096 := by
  intro frames
  induction frames with
  | nil =>
    intro s _ _ h0 h1
    exact ⟨by intro x hx; simp [NeonSynth.renderBlocksPhases] at hx, h0, h1⟩
  | cons n ns ih =>
    intro s hF hsteady h0 h1
    obtain ⟨b1, b2, b3, b4⟩ := block_phase s sr n hsteady (hF ▸ hinc0) (hF ▸ hinc1) h0 h1
    obtain ⟨r1, r2⟩ := ih (s.onAudioReady sr n).1
      ((onAudioReady_targets s sr n).1.trans hF) b2 b3 b4
    refine ⟨?_, r2⟩
    intro x hx
    simp only [NeonSynth.renderBlocksPhases, List.mem_append] at hx
    rcases hx with hx | hx
    · exact b1 x hx
    · exact r1 x hx

theorem onAudioReady_silentInvariant (s : NeonSynth) (sr n : Int) (h : s.silentInvariant) :
    (s.onAudioReady sr n).1.silentInvariant := by
  cases hp : s.silentPath
  · intro hsil
    rw [onAudioReady_ramp_isSilent s sr n hp] at hsil
    exact absurd hsil (by decide)
  · rw [onAudioReady_silent s sr n hp]
    cases hsil : s.mIsSilent
    · intro _
      rfl
    · simp only [Bool.true_eq_false, if_false]
      intro _
      exact h hsil

theorem call_silentInvariant (s : NeonSynth) (c : SynthCall) (h : s.silentInvariant) :
    (s.call c).1.silentInvariant := by
  cases c with
  | setParameters f a => exact h
  | setSensorModulation m => exact h
  | setMasterVolume v => exact h
  | updateTargets f a => exact h
  | onAudioReady sr n => exact onAudioReady_silentInvariant s sr n h

theorem run_nil (s : NeonSynth) : s.run [] = (s, []) := rfl

theorem run_cons_fst (s : NeonSynth) (c : SynthCall) (cs : List SynthCall) :
    (s.run (c :: cs)).1 = ((s.call c).1.run cs).1 := by
  simp only [NeonSynth.run]
  split <;> rfl

theorem run_cons_snd (s : NeonSynth) (c : SynthCall) (cs : List SynthCall) :
    (s.run (c :: cs)).2 =
      (match (s.call c).2 with
        | some block => block :: ((s.call c).1.run cs).2
        | none => ((s.call c).1.run cs).2) := by
  simp only [NeonSynth.run]
  split <;> rfl

theorem run_silentInvariant :
    ∀ (calls : List SynthCall) (s : NeonSynth), s.silentInvariant →
      (s.run calls).1.silentInvariant := by
  intro calls
  induction calls with
  | nil => intro s h; exact h
  | cons c cs ih =>
    intro s h
    rw [run_cons_fst]
    exact ih _ (call_silentInvariant s c h)

/-- In every reachable state the silence flag implies a zero current
amplitude. -/
theorem reachable_silentInvariant (s : NeonSynth) (h : s.Reachable) : s.silentInvariant := by
  obtain ⟨table, calls, rfl⟩ := h
  apply run_silentInvariant
  intro hsil
  rfl

theorem quiet_silentPath (s : NeonSynth) (h : s.quiet) : s.silentPath = true := by
  rw [silentPath_iff]
  refine ⟨?_, h.2⟩
  rw [h.1]
  norm_num

/-- A block rendered from a quiet state is all zeros and leaves the state
quiet. -/
theorem onAudioReady_quiet (s : NeonSynth) (sr n : Int) (h : s.quiet) :
    (s.onAudioReady sr n).2 = List.replicate n.toNat 0 ∧ (s.onAudioReady sr n).1.quiet := by
  rw [onAudioReady_silent s sr n (quiet_silentPath s h)]
  refine ⟨rfl, ?_⟩
  split
  · exact ⟨h.1, by norm_num⟩
  · exact h

/-- Any block rendered while the target amplitude is 0 leaves the state
quiet. -/
theorem onAudioReady_makes_quiet (s : NeonSynth) (sr n : Int) (h : s.mTargetAmplitude = 0) :
    (s.onAudioReady sr n).1.quiet := by
  cases hp : s.silentPath
  · rw [onAudioReady_ramp s sr n hp]
    refine ⟨?_, ?_⟩
    · have := (onAudioReady_targets s sr n).2.1
      rw [onAudioReady_ramp s sr n hp] at this
      rw [this, h]
    · simp only [h]
      norm_num
  · have hq : s.quiet := ⟨h, ((silentPath_iff s).mp hp).2⟩
    exact (onAudioReady_quiet s sr n hq).2

theorem call_quiet (s : NeonSynth) (c : SynthCall) (h : s.quiet)
    (hc : c.keepsTargetAmplitudeZero = true) :
    (s.call c).1.quiet ∧ ∀ block, (s.call c).2 = some block → ∀ x ∈ block, x = 0 := by
  cases c with
  | setParameters f a =>
    simp only [SynthCall.keepsTargetAmplitudeZero, decide_eq_true_eq] at hc
    subst hc
    exact ⟨⟨rfl, h.2⟩, by intro b hb; simp [NeonSynth.call] at hb⟩
  | setSensorModulation m => exact ⟨h, by intro b hb; simp [NeonSynth.call] at hb⟩
  | setMasterVolume v => exact ⟨h, by intro b hb; simp [NeonSynth.call] at hb⟩
  | updateTargets f a =>
    simp only [SynthCall.keepsTargetAmplitudeZero, decide_eq_true_eq] at hc
    subst hc
    exact ⟨⟨rfl, h.2⟩, by intro b hb; simp [NeonSynth.call] at hb⟩
  | onAudioReady sr n =>
    refine ⟨(onAudioReady_quiet s sr n h).2, ?_⟩
    intro b hb
    simp only [NeonSynth.call, Option.some.injEq] at hb
    rw [(onAudioReady_quiet s sr n h).1] at hb
    subst hb
    intro x hx
    exact List.eq_of_mem_replicate hx

/-- From a quiet state, calls that keep the target amplitude at 0 only ever
render all-zero blocks. -/
theorem run_quiet :
    ∀ (calls : List SynthCall) (s : NeonSynth), s.quiet →
      (∀ c ∈ calls, c.keepsTargetAmplitudeZero = true) →
      ∀ block ∈ (s.run calls).2, ∀ x ∈ block, x = 0 := by
  intro calls
  induction calls with
  | nil => intro s _ _ block hb; simp [run_nil] at hb
  | cons c cs ih =>
    intro s hq hk block hb
    obtain ⟨q1, q2⟩ := call_quiet s c hq (hk c (List.mem_cons_self _ _))
    have hrest := ih (s.call c).1 q1 (fun d hd => hk d (List.mem_cons_of_mem _ hd))
    rw [run_cons_snd] at hb
    cases hcall : (s.call c).2 with
    | none =>
      rw [hcall] at hb
      exact hrest block hb
    | some b0 =>
      rw [hcall] at hb
      simp only [List.mem_cons] at hb
      rcases hb with rfl | hb
      · exact q2 _ hcall
      · exact hrest block hb

/-! ## Stillness tracker: main results -/

/-- C1 (debounce). From the tracker as constructed (counter 0), feed `n < 2^31`
smoothed samples that are all below the 0.1 cutoff. Step `i` (counting from 0)
issues a suspend exactly when it is the 50th sample and issues nothing
otherwise; so the number of suspends is 0 for `n ≤ 49` and 1 for `n ≥ 50`, no
resume is issued, and the counter ends at `n`. -/
theorem stillness_debounce (samples : List ℚ) (hstill : ∀ x ∈ samples, x < 1 / 10)
    (hlen : samples.length < 2 ^ 31) :
    (sensorEngine.feed samples).2
        = (List.range samples.length).map
            (fun i => if i + 1 = 50 then [HwRequest.suspend] else [])
      ∧ suspendCount (sensorEngine.feed samples).2 = (if samples.length ≤ 49 then 0 else 1)
      ∧ resumeCount (sensorEngine.feed samples).2 = 0
      ∧ (sensorEngine.feed samples).1.mStillnessFrameCounter = samples.length := by
  have hrun := feed_still samples hstill sensorEngine (by decide)
    (by simp only [sensorEngine, NeonSensors.new]; norm_num at hlen; omega)
  have htrace : (sensorEngine.feed samples).2
      = (List.range samples.length).map
          (fun i => if i + 1 = 50 then [HwRequest.suspend] else []) := by
    rw [hrun]
    simp only [sensorEngine, NeonSensors.new, zero_add, if_true]
    apply List.map_congr_left
    intro i _
    have e : ((i : Int) + 1 = 50) ↔ (i + 1 = 50) := by omega
    simp only [e]
  refine ⟨htrace, ?_, ?_, ?_⟩
  · rw [htrace, suspendCount_debounce]
  · rw [htrace, resumeCount_debounce]
  · rw [hrun]
    simp [sensorEngine, NeonSensors.new]

/-- Witness for C1: fifty samples of magnitude 0.05. -/
theorem stillness_debounce_witness :
    (∀ x ∈ List.replicate 50 (1 / 20 : ℚ), x < 1 / 10)
      ∧ (List.replicate 50 (1 / 20 : ℚ)).length < 2 ^ 31
      ∧ suspendCount (sensorEngine.feed (List.replicate 50 (1 / 20 : ℚ))).2 = 1
      ∧ resumeCount (sensorEngine.feed (List.replicate 50 (1 / 20 : ℚ))).2 = 0 := by
  have hstill : ∀ x ∈ List.replicate 50 (1 / 20 : ℚ), x < 1 / 10 := by
    intro x hx
    rw [List.eq_of_mem_replicate hx]
    norm_num
  have hlen : (List.replicate 50 (1 / 20 : ℚ)).length < 2 ^ 31 := by
    rw [List.length_replicate]
    norm_num
  have h := stillness_debounce (List.replicate 50 (1 / 20 : ℚ)) hstill hlen
  refine ⟨hstill, hlen, ?_, h.2.2.1⟩
  have h2 := h.2.1
  rw [List.length_replicate] at h2
  simpa using h2

/-- C2 (wake step). For every counter value and every smoothed sample at or
above the 0.1 cutoff, a tracker attached to a synth issues exactly one resume
when the counter is at least 50 and no request when it is below 50; it never
issues a suspend, and the counter is 0 afterwards. -/
theorem stillness_wake_step (t : NeonSensors) (hsynth : t.mSynth = true) (x : ℚ)
    (hx : 1 / 10 ≤ x) :
    (50 ≤ t.mStillnessFrameCounter → (t.pollStep x).2 = [HwRequest.resume])
      ∧ (t.mStillnessFrameCounter < 50 → (t.pollStep x).2 = [])
      ∧ HwRequest.suspend ∉ (t.pollStep x).2
      ∧ (t.pollStep x).1.mStillnessFrameCounter = 0 := by
  rw [pollStep_moving t x (not_lt.mpr hx), hsynth]
  simp only [if_true]
  refine ⟨fun h => by rw [if_pos h], fun h => by rw [if_neg (by omega)], ?_, trivial⟩
  split <;> simp

/-- Witness for C2: a sleeping tracker (counter 50) receives magnitude 0.5. -/
theorem stillness_wake_step_witness :
    (1 / 10 : ℚ) ≤ 1 / 2
      ∧ (({ mSynth := true, mStillnessFrameCounter := 50 } : NeonSensors).pollStep (1 / 2)).2
          = [HwRequest.resume]
      ∧ (({ mSynth := true, mStillnessFrameCounter := 50 } : NeonSensors).pollStep
          (1 / 2)).1.mStillnessFrameCounter = 0 := by
  have h := stillness_wake_step { mSynth := true, mStillnessFrameCounter := 50 } rfl (1 / 2)
    (by norm_num)
  exact ⟨by norm_num, h.1 (by decide), h.2.2.2⟩

/-- C9, as stated, fails: after 51 still samples (magnitude 0.05) the counter
is 51, above the threshold 50. -/
theorem counter_bound_counterexample :
    (sensorEngine.feed (List.replicate 51 (1 / 20 : ℚ))).1.mStillnessFrameCounter = 51
      ∧ ¬ ((sensorEngine.feed (List.replicate 51 (1 / 20 : ℚ))).1.mStillnessFrameCounter
            ≤ kStillnessThreshold) := by
  have hstill : ∀ x ∈ List.replicate 51 (1 / 20 : ℚ), x < 1 / 10 := by
    intro x hx
    rw [List.eq_of_mem_replicate hx]
    norm_num
  have hrun := feed_still (List.replicate 51 (1 / 20 : ℚ)) hstill sensorEngine (by decide)
    (by rw [List.length_replicate]; decide)
  rw [hrun]
  simp only [List.length_replicate, sensorEngine, NeonSensors.new, kStillnessThreshold]
  decide

/-- C9, amended. In every state reached from the constructed tracker by fewer
than `2^31` samples the counter is non-negative and at most the number of
samples fed; it is not capped at the threshold: when all samples are still it
equals the number of samples. A sample at or above the cutoff resets it to
0. -/
theorem counter_bound (samples : List ℚ) (hlen : samples.length < 2 ^ 31) :
    0 ≤ (sensorEngine.feed samples).1.mStillnessFrameCounter
      ∧ (sensorEngine.feed samples).1.mStillnessFrameCounter ≤ samples.length
      ∧ ((∀ x ∈ samples, x < 1 / 10) →
          (sensorEngine.feed samples).1.mStillnessFrameCounter = samples.length)
      ∧ (∀ x : ℚ, 1 / 10 ≤ x →
          (sensorEngine.feed (samples ++ [x])).1.mStillnessFrameCounter = 0
            ∧ ((sensorEngine.feed samples).1.pollStep x).1.mStillnessFrameCounter = 0) := by
  have hb : sensorEngine.mStillnessFrameCounter + (samples.length : Int) < 2147483648 := by
    simp only [sensorEngine, NeonSensors.new]
    norm_num at hlen
    omega
  obtain ⟨_, _, h3, h4, _, _⟩ := feed_invariant samples sensorEngine rfl (by decide) hb
  refine ⟨h3, ?_, ?_, ?_⟩
  · simpa [sensorEngine, NeonSensors.new] using h4
  · intro hstill
    rw [feed_still samples hstill sensorEngine (by decide) hb]
    simp [sensorEngine, NeonSensors.new]
  · intro x hx
    have hstep : ((sensorEngine.feed samples).1.pollStep x).1.mStillnessFrameCounter = 0 := by
      rw [pollStep_moving _ x (not_lt.mpr hx)]
    refine ⟨?_, hstep⟩
    rw [feed_append_fst, feed_cons, feed_nil]
    exact hstep

/-- Witness for C9 amended: sixty still samples leave the counter at 60 (it is
at most 60 and, the samples being still, equal to 60), and a following sample
of magnitude 0.5 resets it to 0. -/
theorem counter_bound_witness :
    (List.replicate 60 (1 / 20 : ℚ)).length < 2 ^ 31
      ∧ 0 ≤ (sensorEngine.feed (List.replicate 60 (1 / 20 : ℚ))).1.mStillnessFrameCounter
      ∧ (sensorEngine.feed (List.replicate 60 (1 / 20 : ℚ))).1.mStillnessFrameCounter ≤ 60
      ∧ (sensorEngine.feed
          (List.replicate 60 (1 / 20 : ℚ) ++ [1 / 2])).1.mStillnessFrameCounter = 0 := by
  have hlen : (List.replicate 60 (1 / 20 : ℚ)).length < 2 ^ 31 := by
    rw [List.length_replicate]
    norm_num
  have h := counter_bound (List.replicate 60 (1 / 20 : ℚ)) hlen
  refine ⟨hlen, h.1, ?_, (h.2.2.2 (1 / 2) (by norm_num)).1⟩
  have h2 := h.2.1
  rw [List.length_replicate] at h2
  exact_mod_cast h2

/-- C10 (alternation). For every sequence of fewer than `2^31` smoothed samples
fed to the constructed tracker: each step issues at most one request; the
requests, in order, alternate and start with a suspend; and after every
initial segment of the sequence the number of resumes is at most the number of
suspends, which is at most the number of resumes plus one, the two differing
exactly when the counter is at least 50. -/
theorem suspend_resume_alternation (samples : List ℚ) (hlen : samples.length < 2 ^ 31) :
    (∀ step ∈ (sensorEngine.feed samples).2, step.length ≤ 1)
      ∧ alternates true (sensorEngine.feed samples).2.flatten = true
      ∧ ∀ k : Nat,
          resumeCount (sensorEngine.feed (samples.take k)).2
              ≤ suspendCount (sensorEngine.feed (samples.take k)).2
            ∧ suspendCount (sensorEngine.feed (samples.take k)).2
              ≤ resumeCount (sensorEngine.feed (samples.take k)).2 + 1
            ∧ (suspendCount (sensorEngine.feed (samples.take k)).2
                ≠ resumeCount (sensorEngine.feed (samples.take k)).2
              ↔ 50 ≤ (sensorEngine.feed (samples.take k)).1.mStillnessFrameCounter) := by
  have hlen2 : (samples.length : Int) < 2147483648 := by
    norm_num at hlen
    omega
  have hb : sensorEngine.mStillnessFrameCounter + (samples.length : Int) < 2147483648 := by
    simp only [sensorEngine, NeonSensors.new]
    omega
  obtain ⟨h1, _, _, _, h5, _⟩ := feed_invariant samples sensorEngine rfl (by decide) hb
  refine ⟨h1, ?_, ?_⟩
  · simpa [sensorEngine, NeonSensors.new] using h5
  · intro k
    have hk : ((samples.take k).length : Int) ≤ samples.length := by
      have := @List.length_take _ k samples
      omega
    have hbk : sensorEngine.mStillnessFrameCounter + ((samples.take k).length : Int)
        < 2147483648 := by
      simp only [sensorEngine, NeonSensors.new]
      omega
    obtain ⟨_, _, _, _, _, h6⟩ :=
      feed_invariant (samples.take k) sensorEngine rfl (by decide) hbk
    have hinit : ¬ ((50 : Int) ≤ sensorEngine.mStillnessFrameCounter) := by decide
    rw [if_neg hinit] at h6
    by_cases hc : 50 ≤ (sensorEngine.feed (samples.take k)).1.mStillnessFrameCounter
    · rw [if_pos hc] at h6
      refine ⟨by omega, by omega, ?_⟩
      constructor
      · intro _; exact hc
      · intro _; omega
    · rw [if_neg hc] at h6
      refine ⟨by omega, by omega, ?_⟩
      constructor
      · intro hne; exact absurd (by omega) hne
      · intro h; exact absurd h hc

/-- Witness for C10: fifty samples of a device at rest followed by one sample
of magnitude 0.5. -/
theorem suspend_resume_alternation_witness :
    (List.replicate 50 (0 : ℚ) ++ [(1 / 2 : ℚ)]).length < 2 ^ 31
      ∧ (∀ step ∈ (sensorEngine.feed (List.replicate 50 (0 : ℚ) ++ [(1 / 2 : ℚ)])).2,
          step.length ≤ 1)
      ∧ alternates true
          (sensorEngine.feed (List.replicate 50 (0 : ℚ) ++ [(1 / 2 : ℚ)])).2.flatten = true := by
  have hlen : (List.replicate 50 (0 : ℚ) ++ [(1 / 2 : ℚ)]).length < 2 ^ 31 := by
    simp
  have h := suspend_resume_alternation _ hlen
  exact ⟨hlen, h.1, h.2.1⟩

/-! ## Renderer and parameter channel: main results -/

/-- C3 (ramp linearity, exact arithmetic). On the ramp path with `N > 0`
frames, starting frequency `f0` and target `f1`: the block has `N` samples,
the frequency used for sample `k` (1 ≤ k ≤ N) is `f0 + k * (f1 - f0) / N`, and
after the block the current frequency is `f1` and the current amplitude is the
target amplitude. For `f0 = 440`, `f1 = 880`, `N = 100` the step is `4.4` and
sample `k + 1` uses `440 + (k + 1) * 4.4`. -/
theorem ramp_linearity (s : NeonSynth) (sr N : Int) (hN : 0 < N)
    (hpath : ¬ (s.mTargetAmplitude ≤ 1 / 1000 ∧ s.mCurrentAmplitude ≤ 1 / 1000)) :
    (s.blockFrequencies sr N).length = N.toNat
      ∧ (∀ k : Nat, 1 ≤ k → (k : Int) ≤ N →
          (s.blockFrequencies sr N)[k - 1]?
            = some (s.mCurrentFrequency
                + (k : ℚ) * (s.mTargetFrequency - s.mCurrentFrequency) / (N : ℚ)))
      ∧ (s.onAudioReady sr N).2.length = N.toNat
      ∧ (s.onAudioReady sr N).1.mCurrentFrequency = s.mTargetFrequency
      ∧ (s.onAudioReady sr N).1.mCurrentAmplitude = s.mTargetAmplitude
      ∧ (s.mCurrentFrequency = 440 → s.mTargetFrequency = 880 → N = 100 →
          s.freqStep N = 22 / 5
            ∧ ∀ k : Nat, k < 100 →
                (s.blockFrequencies sr N)[k]? = some (440 + ((k : ℚ) + 1) * (22 / 5))) := by
  have hp : s.silentPath = false := by
    cases h : s.silentPath
    · rfl
    · exact absurd ((silentPath_iff s).mp h) hpath
  have hfreq : ∀ i : Nat, i < N.toNat →
      (s.blockFrequencies sr N)[i]? = some (s.mCurrentFrequency + ((i : ℚ) + 1) * s.freqStep N) := by
    intro i hi
    exact renderLoop_frequency _ _ _ _ N.toNat _ i hi
  have hlen : (s.blockFrequencies sr N).length = N.toNat := by
    simp only [NeonSynth.blockFrequencies, NeonSynth.rampIterations, List.length_map,
      renderLoop_length]
  refine ⟨hlen, ?_, ?_, ?_, ?_, ?_⟩
  · intro k hk1 hkN
    rw [hfreq (k - 1) (by omega)]
    congr 1
    have hk : ((k - 1 : Nat) : ℚ) + 1 = (k : ℚ) := by
      have : k - 1 + 1 = k := by omega
      exact_mod_cast this
    rw [hk]
    simp only [NeonSynth.freqStep]
    ring
  · rw [onAudioReady_ramp s sr N hp]
    simp only [NeonSynth.rampIterations, List.length_map, renderLoop_length]
  · rw [onAudioReady_ramp s sr N hp]
  · rw [onAudioReady_ramp s sr N hp]
  · intro h0 h1 h100
    subst h100
    have hstep : s.freqStep 100 = 22 / 5 := by
      simp only [NeonSynth.freqStep, h0, h1]
      norm_num
    refine ⟨hstep, ?_⟩
    intro k hk
    rw [hfreq k (by simpa using hk), hstep, h0]

/-- Witness for C3: 440 Hz to 880 Hz over a block of 100 frames. -/
theorem ramp_linearity_witness :
    (0 : Int) < 100
      ∧ ¬ (rampExample.mTargetAmplitude ≤ 1 / 1000 ∧ rampExample.mCurrentAmplitude ≤ 1 / 1000)
      ∧ rampExample.freqStep 100 = 22 / 5
      ∧ (rampExample.blockFrequencies 48000 100)[0]? = some (2222 / 5)
      ∧ (rampExample.blockFrequencies 48000 100)[99]? = some 880
      ∧ (rampExample.onAudioReady 48000 100).1.mCurrentFrequency = 880 := by
  have hpath : ¬ (rampExample.mTargetAmplitude ≤ 1 / 1000
      ∧ rampExample.mCurrentAmplitude ≤ 1 / 1000) := by
    simp only [rampExample, NeonSynth.setParameters, NeonSynth.new]
    norm_num
  have h := ramp_linearity rampExample 48000 100 (by decide) hpath
  obtain ⟨_, _, _, h4, _, h6⟩ := h
  obtain ⟨h7, h8⟩ := h6 rfl rfl rfl
  refine ⟨by decide, hpath, h7, ?_, ?_, h4⟩
  · rw [h8 0 (by decide)]
    norm_num
  · rw [h8 99 (by decide)]
    norm_num

/-- C4, as stated, fails. The state `overdriven` is steady (current frequency
72000 = target, current amplitude 0.5 = target) with phase 2048 in `[0, 4096)`,
the sample rate 48000 is positive, and one more block of one frame leaves the
phase at exactly 4096. -/
theorem phase_invariant_counterexample :
    overdriven.mCurrentFrequency = overdriven.mTargetFrequency
      ∧ overdriven.mCurrentAmplitude = overdriven.mTargetAmplitude
      ∧ 0 < overdriven.mTargetFrequency
      ∧ 0 ≤ overdriven.mTargetAmplitude ∧ overdriven.mTargetAmplitude ≤ 1
      ∧ overdriven.mPhase = 2048
      ∧ NeonSynth.renderBlocksPhases 48000 overdriven [1] = [4096]
      ∧ ¬ (∀ x ∈ NeonSynth.renderBlocksPhases 48000 overdriven [1], 0 ≤ x ∧ x < (kTableSize : ℚ)) := by
  have hphases : NeonSynth.renderBlocksPhases 48000 overdriven [1] = [4096] := by
    simp [NeonSynth.renderBlocksPhases, NeonSynth.blockPhases, overdriven,
      NeonSynth.onAudioReady, NeonSynth.silentPath, NeonSynth.setParameters, NeonSynth.new,
      NeonSynth.rampIterations, NeonSynth.renderLoop, NeonSynth.renderSample, lastState,
      NeonSynth.freqStep, NeonSynth.ampStep, kTableSize]
    norm_num
  have hp : ((NeonSynth.new flatTable).setParameters 72000 (1 / 2)).silentPath = false := by
    simp only [NeonSynth.silentPath, NeonSynth.setParameters, NeonSynth.new]
    norm_num
  have htf : overdriven.mTargetFrequency = 72000 := (onAudioReady_targets _ _ _).1
  have hta : overdriven.mTargetAmplitude = 1 / 2 := (onAudioReady_targets _ _ _).2.1
  have hcf : overdriven.mCurrentFrequency = 72000 := by
    unfold overdriven
    rw [onAudioReady_ramp _ _ _ hp]
    rfl
  have hca : overdriven.mCurrentAmplitude = 1 / 2 := by
    unfold overdriven
    rw [onAudioReady_ramp _ _ _ hp]
    rfl
  have hph : overdriven.mPhase = 2048 := by
    unfold overdriven
    rw [onAudioReady_ramp _ _ _ hp]
    simp [NeonSynth.setParameters, NeonSynth.new,
      NeonSynth.rampIterations, NeonSynth.renderLoop, NeonSynth.renderSample, lastState,
      NeonSynth.freqStep, NeonSynth.ampStep, kTableSize]
    norm_num
  refine ⟨by rw [hcf, htf], by rw [hca, hta], by rw [htf]; norm_num, by rw [hta]; norm_num,
    by rw [hta]; norm_num, hph, hphases, ?_⟩
  rw [hphases]
  simp [kTableSize]

/-- C4, amended. Let the renderer start in a steady state (current frequency
equal to the target `f`) with phase in `[0, 4096)`, with `0 < f` and
`f ≤ sampleRate`, and render any number of consecutive blocks, of any frame
counts, with the targets untouched. Then after every sample of every block,
and at the end, the phase is in `[0, 4096)`. No assumption on the amplitude is
needed. -/
theorem phase_invariant (s : NeonSynth) (sampleRate : Int) (frames : List Int)
    (hf : 0 < s.mTargetFrequency) (hfsr : s.mTargetFrequency ≤ (sampleRate : ℚ))
    (hsteady : s.mCurrentFrequency = s.mTargetFrequency)
    (hp0 : 0 ≤ s.mPhase) (hp1 : s.mPhase < (kTableSize : ℚ)) :
    (∀ x ∈ NeonSynth.renderBlocksPhases sampleRate s frames, 0 ≤ x ∧ x < (kTableSize : ℚ))
      ∧ 0 ≤ (NeonSynth.renderBlocks sampleRate s frames).mPhase
      ∧ (NeonSynth.renderBlocks sampleRate s frames).mPhase < (kTableSize : ℚ) := by
  have hk : (kTableSize : ℚ) = 4096 := by simp [kTableSize]
  obtain ⟨i0, i1⟩ := increment_bounds s.mTargetFrequency sampleRate hf hfsr
  rw [hk] at hp1 ⊢
  exact renderBlocks_phase sampleRate s.mTargetFrequency i0 i1 frames s rfl hsteady hp0 hp1

/-- Witness for C4 amended: 440 Hz at 48000 Hz, blocks of 2 and 3 frames, five
phases in all. -/
theorem phase_invariant_witness :
    0 < steadyExample.mTargetFrequency
      ∧ steadyExample.mTargetFrequency ≤ ((48000 : Int) : ℚ)
      ∧ steadyExample.mCurrentFrequency = steadyExample.mTargetFrequency
      ∧ 0 ≤ steadyExample.mPhase ∧ steadyExample.mPhase < (kTableSize : ℚ)
      ∧ (NeonSynth.renderBlocksPhases 48000 steadyExample [2, 3]).length = 5
      ∧ (∀ x ∈ NeonSynth.renderBlocksPhases 48000 steadyExample [2, 3],
          0 ≤ x ∧ x < (kTableSize : ℚ)) := by
  have hp : ((NeonSynth.new flatTable).setParameters 440 (1 / 2)).silentPath = false := by
    simp only [NeonSynth.silentPath, NeonSynth.setParameters, NeonSynth.new]
    norm_num
  have htf : steadyExample.mTargetFrequency = 440 := (onAudioReady_targets _ _ _).1
  have hcf : steadyExample.mCurrentFrequency = 440 := by
    unfold steadyExample
    rw [onAudioReady_ramp _ _ _ hp]
    rfl
  have hph : steadyExample.mPhase = 0 := by
    unfold steadyExample
    rw [onAudioReady_ramp _ _ _ hp]
    rfl
  have h1 : 0 < steadyExample.mTargetFrequency := by
    rw [htf]; norm_num
  have h2 : steadyExample.mTargetFrequency ≤ ((48000 : Int) : ℚ) := by
    rw [htf]; norm_num
  have h3 : steadyExample.mCurrentFrequency = steadyExample.mTargetFrequency := by
    rw [hcf, htf]
  have h4 : 0 ≤ steadyExample.mPhase := by
    rw [hph]
  have h5 : steadyExample.mPhase < (kTableSize : ℚ) := by
    rw [hph]; simp [kTableSize]
  have hta : steadyExample.mTargetAmplitude = 1 / 2 := (onAudioReady_targets _ _ _).2.1
  have hta2 : (steadyExample.onAudioReady 48000 2).1.mTargetAmplitude = 1 / 2 :=
    (onAudioReady_targets _ _ _).2.1.trans hta
  have hlen : (NeonSynth.renderBlocksPhases 48000 steadyExample [2, 3]).length = 5 := by
    simp only [NeonSynth.renderBlocksPhases, List.length_append, List.length_nil, add_zero]
    rw [blockPhases_length _ _ _ (by rw [hta]; norm_num),
      blockPhases_length _ _ _ (by rw [hta2]; norm_num)]
    rfl
  exact ⟨h1, h2, h3, h4, h5, hlen,
    (phase_invariant steadyExample 48000 [2, 3] h1 h2 h3 h4 h5).1⟩

/-- C5 (silence fast path). For every reachable renderer state whose current
amplitude is at most 0.001 and whose target amplitude is at most 0.001, a block
of `N` frames is `N` zeros, the current amplitude becomes 0, the silence flag
is set, and phase and current frequency are unchanged. Consequently, from any
state whose target amplitude has been set to 0, after one block of `N0 > 0`
frames every block rendered by later calls that keep the target amplitude at 0
consists of zeros only. -/
theorem silence_fast_path (s : NeonSynth) (hreach : s.Reachable)
    (hcur : s.mCurrentAmplitude ≤ 1 / 1000) (htarget : s.mTargetAmplitude ≤ 1 / 1000)
    (sampleRate N : Int) :
    (s.onAudioReady sampleRate N).2 = List.replicate N.toNat 0
      ∧ (s.onAudioReady sampleRate N).1.mCurrentAmplitude = 0
      ∧ (s.onAudioReady sampleRate N).1.mIsSilent = true
      ∧ (s.onAudioReady sampleRate N).1.mPhase = s.mPhase
      ∧ (s.onAudioReady sampleRate N).1.mCurrentFrequency = s.mCurrentFrequency
      ∧ (∀ (s1 : NeonSynth) (sr0 N0 : Int) (later : List SynthCall),
          s1.mTargetAmplitude = 0 → 0 < N0 →
          (∀ c ∈ later, c.keepsTargetAmplitudeZero = true) →
          ∀ block ∈ ((s1.onAudioReady sr0 N0).1.run later).2, ∀ x ∈ block, x = 0) := by
  have hp : s.silentPath = true := (silentPath_iff s).mpr ⟨htarget, hcur⟩
  have hinv := reachable_silentInvariant s hreach
  rw [onAudioReady_silent s sampleRate N hp]
  refine ⟨rfl, ?_, ?_, ?_, ?_, ?_⟩
  · cases hsil : s.mIsSilent
    · rfl
    · simp only [Bool.true_eq_false, if_false]
      exact hinv hsil
  · cases hsil : s.mIsSilent <;> rfl
  · cases hsil : s.mIsSilent <;> rfl
  · cases hsil : s.mIsSilent <;> rfl
  · intro s1 sr0 N0 later h0 _ hkeep
    exact run_quiet later _ (onAudioReady_makes_quiet s1 sr0 N0 h0) hkeep

/-- Witness for C5: the freshly constructed synth (amplitudes 0) renders a
block of four frames. -/
theorem silence_fast_path_witness :
    (NeonSynth.new flatTable).Reachable
      ∧ (NeonSynth.new flatTable).mCurrentAmplitude ≤ 1 / 1000
      ∧ (NeonSynth.new flatTable).mTargetAmplitude ≤ 1 / 1000
      ∧ ((NeonSynth.new flatTable).onAudioReady 48000 4).2 = [0, 0, 0, 0]
      ∧ ((NeonSynth.new flatTable).onAudioReady 48000 4).1.mIsSilent = true := by
  have hr : (NeonSynth.new flatTable).Reachable := ⟨flatTable, [], rfl⟩
  have hc : (NeonSynth.new flatTable).mCurrentAmplitude ≤ 1 / 1000 := by
    simp only [NeonSynth.new]; norm_num
  have ht : (NeonSynth.new flatTable).mTargetAmplitude ≤ 1 / 1000 := by
    simp only [NeonSynth.new]; norm_num
  have h := silence_fast_path (NeonSynth.new flatTable) hr hc ht 48000 4
  exact ⟨hr, hc, ht, h.1, h.2.2.1⟩

/-- C6, as stated, fails. With zero frames, the synth after
`setParameters(880, 0.5)` goes from oscillator state (phase 0, frequency 440,
amplitude 0, not silent) to (phase 0, frequency 880, amplitude 0.5, not
silent). -/
theorem malformed_request_counterexample :
    rampExample.oscillatorState
        = { phase := 0, currentFrequency := 440, currentAmplitude := 0, isSilent := false }
      ∧ (rampExample.onAudioReady 48000 0).1.oscillatorState
        = { phase := 0, currentFrequency := 880, currentAmplitude := 1 / 2, isSilent := false }
      ∧ (rampExample.onAudioReady 48000 0).1.oscillatorState ≠ rampExample.oscillatorState := by
  have hp : rampExample.silentPath = false := by
    simp only [NeonSynth.silentPath, rampExample, NeonSynth.setParameters, NeonSynth.new]
    norm_num
  have h1 : rampExample.oscillatorState
      = { phase := 0, currentFrequency := 440, currentAmplitude := 0, isSilent := false } := rfl
  have h2 : (rampExample.onAudioReady 48000 0).1.oscillatorState
      = { phase := 0, currentFrequency := 880, currentAmplitude := 1 / 2, isSilent := false } := by
    rw [onAudioReady_ramp _ _ _ hp]
    rfl
  refine ⟨h1, h2, ?_⟩
  rw [h1, h2]
  intro h
  have h3 := congrArg OscillatorState.currentFrequency h
  norm_num at h3

/-- C6, amended. A render call with a frame count that is zero or negative
writes no sample and leaves the phase unchanged, but it is not a no-op on the
rest of the oscillator state. When the target and the current amplitude are
both at most 0.001 it takes the silence branch: the silence flag is set, the
current amplitude is zeroed when the flag was clear, and the current frequency
is unchanged. When the target or the current amplitude is above the binary32
literal `0.001f` it takes the ramp branch: the silence flag is cleared and the
current frequency and amplitude are set to the targets. In every case the
outcome is one of these two. -/
theorem malformed_request (s : NeonSynth) (sampleRate numFrames : Int) (hn : numFrames ≤ 0) :
    (s.onAudioReady sampleRate numFrames).2 = []
      ∧ (s.onAudioReady sampleRate numFrames).1.mPhase = s.mPhase
      ∧ (s.mTargetAmplitude ≤ 1 / 1000 → s.mCurrentAmplitude ≤ 1 / 1000 →
          (s.onAudioReady sampleRate numFrames).1.oscillatorState
            = { phase := s.mPhase, currentFrequency := s.mCurrentFrequency,
                currentAmplitude := if s.mIsSilent = true then s.mCurrentAmplitude else 0,
                isSilent := true })
      ∧ (lit_0_001f < s.mTargetAmplitude ∨ lit_0_001f < s.mCurrentAmplitude →
          (s.onAudioReady sampleRate numFrames).1.oscillatorState
            = { phase := s.mPhase, currentFrequency := s.mTargetFrequency,
                currentAmplitude := s.mTargetAmplitude, isSilent := false })
      ∧ ((s.onAudioReady sampleRate numFrames).1.oscillatorState
            = { phase := s.mPhase, currentFrequency := s.mCurrentFrequency,
                currentAmplitude := if s.mIsSilent = true then s.mCurrentAmplitude else 0,
                isSilent := true }
          ∨ (s.onAudioReady sampleRate numFrames).1.oscillatorState
            = { phase := s.mPhase, currentFrequency := s.mTargetFrequency,
                currentAmplitude := s.mTargetAmplitude, isSilent := false }) := by
  have hz : numFrames.toNat = 0 := by omega
  have hiter : ∀ r : NeonSynth, r.rampIterations sampleRate numFrames = [] := by
    intro r
    simp only [NeonSynth.rampIterations, hz, renderLoop_zero]
  have hramp : s.silentPath = false →
      (s.onAudioReady sampleRate numFrames)
        = ({ s with mCallbackCounter := wrapInt32 (s.mCallbackCounter + 1), mIsSilent := false,
                    mCurrentAmplitude := s.mTargetAmplitude,
                    mCurrentFrequency := s.mTargetFrequency }, []) := by
    intro hp
    rw [onAudioReady_ramp s sampleRate numFrames hp, hiter]
    rfl
  have hsilent : s.silentPath = true →
      (s.onAudioReady sampleRate numFrames)
        = (if s.mIsSilent = false then
            { s with mCallbackCounter := wrapInt32 (s.mCallbackCounter + 1),
                     mCurrentAmplitude := 0, mIsSilent := true }
           else { s with mCallbackCounter := wrapInt32 (s.mCallbackCounter + 1) }, []) := by
    intro hp
    rw [onAudioReady_silent s sampleRate numFrames hp, hz]
    rfl
  have hsres : s.silentPath = true →
      (s.onAudioReady sampleRate numFrames).1.oscillatorState
        = { phase := s.mPhase, currentFrequency := s.mCurrentFrequency,
            currentAmplitude := if s.mIsSilent = true then s.mCurrentAmplitude else 0,
            isSilent := true } := by
    intro hp
    rw [hsilent hp]
    cases hsil : s.mIsSilent
    · simp [NeonSynth.oscillatorState]
    · simp [NeonSynth.oscillatorState, hsil]
  have hrres : s.silentPath = false →
      (s.onAudioReady sampleRate numFrames).1.oscillatorState
        = { phase := s.mPhase, currentFrequency := s.mTargetFrequency,
            currentAmplitude := s.mTargetAmplitude, isSilent := false } := by
    intro hp
    rw [hramp hp]
    rfl
  have hlit : (1 / 1000 : ℚ) < lit_0_001f := by norm_num [lit_0_001f]
  refine ⟨?_, ?_, ?_, ?_, ?_⟩
  · cases hp : s.silentPath
    · rw [hramp hp]
    · rw [hsilent hp]
  · cases hp : s.silentPath
    · rw [hramp hp]
    · rw [hsilent hp]
      cases hsil : s.mIsSilent <;> rfl
  · intro ht hc
    exact hsres ((silentPath_iff s).mpr ⟨ht, hc⟩)
  · intro habove
    apply hrres
    cases hp : s.silentPath
    · rfl
    · obtain ⟨ht, hc⟩ := (silentPath_iff s).mp hp
      rcases habove with h | h
      · exact absurd ht (not_le.mpr (lt_trans hlit h))
      · exact absurd hc (not_le.mpr (lt_trans hlit h))
  · cases hp : s.silentPath
    · exact Or.inr (hrres hp)
    · exact Or.inl (hsres hp)

/-- Witness for C6 amended: a frame count of -3 on the ramp path. -/
theorem malformed_request_witness :
    (-3 : Int) ≤ 0
      ∧ (rampExample.onAudioReady 48000 (-3)).2 = []
      ∧ (rampExample.onAudioReady 48000 (-3)).1.mPhase = rampExample.mPhase
      ∧ (rampExample.onAudioReady 48000 (-3)).1.oscillatorState
          = { phase := 0, currentFrequency := 880, currentAmplitude := 1 / 2,
              isSilent := false } := by
  have h := malformed_request rampExample 48000 (-3) (by decide)
  have habove : lit_0_001f < rampExample.mTargetAmplitude
      ∨ lit_0_001f < rampExample.mCurrentAmplitude := by
    left
    simp only [rampExample, NeonSynth.setParameters, NeonSynth.new, lit_0_001f]
    norm_num
  exact ⟨by decide, h.1, h.2.1, h.2.2.2.1 habove⟩

end Odradek
